import Mathlib

/-!
Verification of the WBOR archiver's segment placement pipeline.

The development shallowly embeds `src/archive-watchdog/file_watchdog.py`
(the Placement Engine) and the Capture Monitor's rename helper over a
simple filesystem model: an association list from paths (lists of
characters) to abstract content digests.  `compute_file_hash` is modelled
as reading the file's abstract content (SHA-256 digests are identified
with contents; `None` is returned exactly when the file cannot be read).
Directory-lock acquisitions are recorded as a ghost trace (`locks`); the
lock file itself is not part of the audio-file map.  OS-level failures
(`os.makedirs`, `os.replace`) are injected through an `Env` record of
failure flags.  An exception escaping the `on_moved` handler is recorded
in the `raised` flag of the result.
-/

namespace Wbor

/-- Paths and filenames are modelled as lists of characters. -/
abbrev Str := List Char

/-- Index of the last occurrence of a character, mirroring `str.rfind`
(`none` plays the role of Python's `-1`). -/
def lastIdx (c : Char) : Str → Option Nat
  | [] => none
  | x :: xs =>
    match lastIdx c xs with
    | some i => some (i + 1)
    | none => if x = c then some 0 else none

/-- Model of `os.path.basename`: everything after the last `/`. -/
def basename (p : Str) : Str :=
  match lastIdx '/' p with
  | none => p
  | some i => p.drop (i + 1)

/-- Model of CPython's `posixpath.splitext`: split at the last dot of the
basename, unless every character between the last separator and that dot
is itself a dot (leading dots do not start an extension). -/
def splitext (p : Str) : Str × Str :=
  match lastIdx '.' p with
  | none => (p, [])
  | some d =>
    match lastIdx '/' p with
    | none =>
      if (p.take d).all (fun c => c = '.') then (p, []) else (p.take d, p.drop d)
    | some s =>
      if d ≤ s then (p, [])
      else if ((p.drop (s + 1)).take (d - (s + 1))).all (fun c => c = '.') then
        (p, [])
      else (p.take d, p.drop d)

/-- Model of `posixpath.join` for two components. -/
def pjoin (a b : Str) : Str :=
  if b.head? = some '/' then b
  else if a = [] then b
  else if a.getLast? = some '/' then a ++ b else a ++ '/' :: b

/-- Decimal rendering worker; `fuel ≥ n` suffices for full rendering. -/
def natStrAux : Nat → Nat → Str → Str
  | 0, _, acc => acc
  | fuel + 1, n, acc =>
    if n = 0 then acc else natStrAux fuel (n / 10) (Nat.digitChar (n % 10) :: acc)

/-- Decimal rendering of a natural number, as produced by Python's
`f"{counter}"` interpolation. -/
def natStr (n : Nat) : Str :=
  if n = 0 then ['0'] else natStrAux n n []

/-- Decimal value of a digit string (inverse of `natStr`, used to prove
injectivity of the rendering). -/
def strVal : Str → Nat → Nat
  | [], a => a
  | c :: cs, a => strVal cs (a * 10 + (c.toNat - 48))

lemma natStrAux_zero (fuel : Nat) (acc : Str) : natStrAux fuel 0 acc = acc := by
  cases fuel <;> simp [natStrAux]

lemma natStrAux_succ (f n : Nat) (acc : Str) (h : ¬ n = 0) :
    natStrAux (f + 1) n acc = natStrAux f (n / 10) (Nat.digitChar (n % 10) :: acc) := by
  simp [natStrAux, h]

lemma natStrAux_append (fuel : Nat) :
    ∀ n acc, natStrAux fuel n acc = natStrAux fuel n [] ++ acc := by
  induction fuel with
  | zero => intro n acc; simp [natStrAux]
  | succ f ih =>
    intro n acc
    by_cases h : n = 0
    · simp [h, natStrAux_zero]
    · rw [natStrAux_succ f n acc h, natStrAux_succ f n [] h,
        ih (n / 10) (Nat.digitChar (n % 10) :: acc),
        ih (n / 10) [Nat.digitChar (n % 10)]]
      simp

lemma strVal_append (xs : Str) :
    ∀ ys a, strVal (xs ++ ys) a = strVal ys (strVal xs a) := by
  induction xs with
  | nil => intro ys a; simp [strVal]
  | cons c cs ih => intro ys a; simp only [List.cons_append, strVal]; exact ih ys _

lemma digitChar_toNat (k : Nat) (hk : k < 10) : (Nat.digitChar k).toNat = 48 + k := by
  interval_cases k <;> rfl

lemma natStrAux_val (fuel : Nat) :
    ∀ n, 0 < n → n ≤ fuel → strVal (natStrAux fuel n []) 0 = n := by
  induction fuel with
  | zero => intro n h1 h2; omega
  | succ f ih =>
    intro n h1 h2
    rw [natStrAux_succ f n [] (by omega), natStrAux_append]
    by_cases hq : n / 10 = 0
    · have h10 : n < 10 := by omega
      have hm : n % 10 = n := Nat.mod_eq_of_lt h10
      rw [hq, natStrAux_zero]
      simp only [List.nil_append, strVal, hm, digitChar_toNat n h10]
      omega
    · have hqpos : 0 < n / 10 := Nat.pos_of_ne_zero hq
      have hqle : n / 10 ≤ f := by
        have := Nat.div_lt_self h1 (by norm_num : 1 < 10)
        omega
      rw [strVal_append, ih (n / 10) hqpos hqle]
      have hmod : n % 10 < 10 := Nat.mod_lt _ (by norm_num)
      simp only [strVal, digitChar_toNat _ hmod]
      omega

lemma strVal_natStr (n : Nat) : strVal (natStr n) 0 = n := by
  by_cases h : n = 0
  · simp [natStr, h, strVal]
  · rw [natStr, if_neg h]
    exact natStrAux_val n n (Nat.pos_of_ne_zero h) le_rfl

lemma natStr_injective : Function.Injective natStr := by
  intro a b h
  have := strVal_natStr a
  rw [h, strVal_natStr] at this
  omega

/-! ### Filesystem model -/

/-- A filesystem is an association list from paths to abstract content
digests. -/
abbrev FS := List (Str × Nat)

/-- Look up the content of a file (models reading / hashing a file, with
`none` for a missing file). -/
def readFile : FS → Str → Option Nat
  | [], _ => none
  | e :: rest, p => if e.1 = p then some e.2 else readFile rest p

/-- Model of `os.path.exists`. -/
def pathExists (fs : FS) (p : Str) : Bool := (readFile fs p).isSome

/-- Remove a path from the filesystem. -/
def removeFile : FS → Str → FS
  | [], _ => []
  | e :: rest, p => if e.1 = p then removeFile rest p else e :: removeFile rest p

/-- Create / overwrite a file with the given content. -/
def writeFile (fs : FS) (p : Str) (c : Nat) : FS := (p, c) :: removeFile fs p

/-- Model of `os.replace` (also POSIX `os.rename`): atomically move
`src` onto `dst`, silently replacing any file at `dst`.  Returns `none`
(an `OSError`) when the source does not exist. -/
def osReplace (fs : FS) (src dst : Str) : Option FS :=
  match readFile fs src with
  | none => none
  | some c => some (writeFile (removeFile fs src) dst c)

/-- Model of `compute_file_hash` from `file_watchdog.py`: the SHA-256
digest is identified with the abstract content; `None` is returned when
the file cannot be read. -/
def compute_file_hash (fs : FS) (p : Str) : Option Nat := readFile fs p

lemma readFile_removeFile (fs : FS) (p q : Str) :
    readFile (removeFile fs p) q = if q = p then none else readFile fs q := by
  induction fs with
  | nil => simp [removeFile, readFile]
  | cons e rest ih =>
    rw [removeFile]
    by_cases h1 : e.1 = p
    · rw [if_pos h1, ih, readFile]
      by_cases h2 : q = p
      · simp [h2]
      · have hne : ¬ e.1 = q := fun hq => h2 ((h1 ▸ hq : p = q)).symm
        simp [h2, hne]
    · rw [if_neg h1, readFile, readFile, ih]
      by_cases h2 : e.1 = q
      · have hne : ¬ q = p := fun hq => h1 (hq ▸ h2)
        simp [h2, hne]
      · simp [h2]

lemma readFile_writeFile (fs : FS) (p q : Str) (c : Nat) :
    readFile (writeFile fs p c) q = if q = p then some c else readFile fs q := by
  by_cases h : q = p
  · simp [writeFile, readFile, h]
  · have : ¬ p = q := fun hq => h hq.symm
    simp [writeFile, readFile, this, readFile_removeFile, h]

lemma readFile_mem {fs : FS} {p : Str} {v : Nat} (h : readFile fs p = some v) :
    (p, v) ∈ fs := by
  induction fs with
  | nil => simp [readFile] at h
  | cons e rest ih =>
    rw [readFile] at h
    by_cases he : e.1 = p
    · rw [if_pos he] at h
      have hv : e.2 = v := by exact Option.some.inj h
      have : e = (p, v) := by
        cases e
        simp only at he hv
        rw [he, hv]
      rw [this]
      exact List.mem_cons_self _ _
    · rw [if_neg he] at h
      exact List.mem_cons_of_mem _ (ih h)

lemma pathExists_iff_mem_keys (fs : FS) (p : Str) :
    pathExists fs p = true ↔ p ∈ fs.map Prod.fst := by
  constructor
  · intro h
    rw [pathExists, Option.isSome_iff_exists] at h
    obtain ⟨v, hv⟩ := h
    exact List.mem_map.mpr ⟨(p, v), readFile_mem hv, rfl⟩
  · intro h
    induction fs with
    | nil => simp at h
    | cons e rest ih =>
      rw [List.map_cons, List.mem_cons] at h
      by_cases he : e.1 = p
      · simp [pathExists, readFile, he]
      · rcases h with h | h
        · exact absurd h.symm he
        · have := ih h
          simp only [pathExists, readFile, if_neg he]
          exact this

/-! ### The filename regular expression

`FILENAME_REGEX` from `file_watchdog.py` is

  `^(?P<station_id>.+)-(?P<year>\d{4})-(?P<month>\d{2})-(?P<day>\d{2})T`
  `(?P<hour>\d{2}):(?P<minute>\d{2}):(?P<second>\d{2})Z(?:-(?P<counter>\d+))?\.mp3$`

applied with `re.match`.  We implement it as a deterministic matcher with
the same backtracking semantics: the greedy `.+` for the station id tries
the longest run of non-newline characters first and shrinks on failure;
`\d+` for the counter is a maximal digit run (shrinking it can never
recover, since a shorter run still ends in front of a digit); `$` accepts
the end of the string or a single trailing newline. -/

/-- Result of a successful `FILENAME_REGEX` match: one field per named
group of the pattern. -/
structure MatchRes where
  station_id : Str
  year : Str
  month : Str
  day : Str
  hour : Str
  minute : Str
  second : Str
  counter : Option Str
  deriving DecidableEq

/-- Fields matched by the part of the pattern after the station id. -/
structure TailRes where
  year : Str
  month : Str
  day : Str
  hour : Str
  minute : Str
  second : Str
  counter : Option Str
  deriving DecidableEq

/-- Match exactly `n` digit characters (`\d{n}`). -/
def takeDigits : Nat → Str → Option (Str × Str)
  | 0, cs => some ([], cs)
  | _ + 1, [] => none
  | n + 1, c :: cs =>
    if c.isDigit then (takeDigits n cs).map (fun p => (c :: p.1, p.2)) else none

/-- Match one literal character. -/
def expectChar (c : Char) : Str → Option Str
  | [] => none
  | x :: xs => if x = c then some xs else none

/-- Match the literal `.mp3` followed by `$` (end of string, or a single
trailing newline, as in Python's default `$` semantics). -/
def matchMp3End : Str → Bool
  | ['.', 'm', 'p', '3'] => true
  | ['.', 'm', 'p', '3', '\n'] => true
  | _ => false

/-- Match `(?:-(\d+))?\.mp3$`.  When the input starts with `-` but the
counter alternative cannot complete, the optional group cannot fall back
to the empty match either, because `\.mp3` then fails on the `-`. -/
def matchCounterEnd : Str → Option (Option Str)
  | [] => none
  | c :: rest =>
    if c = '-' then
      let ds := rest.takeWhile Char.isDigit
      let rest2 := rest.dropWhile Char.isDigit
      if ¬ ds = [] ∧ matchMp3End rest2 then some (some ds) else none
    else if matchMp3End (c :: rest) then some none else none

/-- Match the whole pattern after `{station_id}-`. -/
def matchTail (cs : Str) : Option TailRes := do
  let (y, r1) ← takeDigits 4 cs
  let r2 ← expectChar '-' r1
  let (mo, r3) ← takeDigits 2 r2
  let r4 ← expectChar '-' r3
  let (d, r5) ← takeDigits 2 r4
  let r6 ← expectChar 'T' r5
  let (h, r7) ← takeDigits 2 r6
  let r8 ← expectChar ':' r7
  let (mi, r9) ← takeDigits 2 r8
  let r10 ← expectChar ':' r9
  let (s, r11) ← takeDigits 2 r10
  let r12 ← expectChar 'Z' r11
  let cnt ← matchCounterEnd r12
  pure ⟨y, mo, d, h, mi, s, cnt⟩

/-- Try a station id of exactly `k` characters: the `k`-th character of
the input must be the separating `-` and the rest must match the tail
pattern. -/
def splitTry (k : Nat) (cs : Str) : Option MatchRes :=
  match cs.drop k with
  | [] => none
  | c :: rest =>
    if c = '-' then
      (matchTail rest).map (fun t =>
        ⟨cs.take k, t.year, t.month, t.day, t.hour, t.minute, t.second, t.counter⟩)
    else none

/-- Backtracking loop of the greedy `.+`: try station lengths `k`,
`k - 1`, ..., `1`. -/
def reMatchAux (cs : Str) : Nat → Option MatchRes
  | 0 => none
  | k + 1 =>
    match splitTry (k + 1) cs with
    | some r => some r
    | none => reMatchAux cs k

/-- Model of `FILENAME_REGEX.match`: the station id is the longest run of
non-newline characters (at least one) for which the remainder matches. -/
def reMatch (cs : Str) : Option MatchRes :=
  reMatchAux cs (cs.takeWhile (fun c => ¬ c = '\n')).length

/-! ### The placement handler (`ArchiveHandler.on_moved`) -/

/-- Configuration of the watchdog, from the `ARCHIVE_DIR` and
`UNMATCHED_DIR` environment variables. -/
structure Config where
  archiveDir : Str
  unmatchedDir : Str
  deriving DecidableEq

/-- Injected OS-level failures: `os.makedirs` failing, and spurious
`OSError`s from the primary and the fallback `os.replace`. -/
structure Env where
  mkdirFails : Bool
  primaryMoveFails : Bool
  fallbackMoveFails : Bool
  deriving DecidableEq

/-- A watchdog `FileSystemEvent` for a move/rename. -/
structure MoveEvent where
  is_directory : Bool
  src_path : Str
  dest_path : Str
  deriving DecidableEq

/-- A RabbitMQ notification message as built in `on_moved`. -/
structure Message where
  filename : Str
  year : Str
  month : Str
  day : Str
  hour : Str
  minute : Str
  second : Str
  deriving DecidableEq

/-- Result of one `on_moved` invocation: the filesystem afterwards, the
published messages, the ghost trace of acquired lock-file paths, and
whether an exception escaped the handler. -/
structure HandlerResult where
  fs : FS
  msgs : List Message
  locks : List Str
  raised : Bool
  deriving DecidableEq

def tempExt : Str := ['.', 't', 'e', 'm', 'p']

def mp3Ext : Str := ['.', 'm', 'p', '3']

def lockName : Str := ['.', 'l', 'o', 'c', 'k']

/-- The message payload built from the original filename and the regex
groups (note: the code interpolates `filename`, not the final conflict-
renamed name). -/
def mkMessage (filename : Str) (m : MatchRes) : Message :=
  ⟨filename, m.year, m.month, m.day, m.hour, m.minute, m.second⟩

/-- The dated target directory `ARCHIVE_DIR/year/month/day`. -/
def datedDir (cfg : Config) (m : MatchRes) : Str :=
  pjoin (pjoin (pjoin cfg.archiveDir m.year) m.month) m.day

/-- Target directory chosen by `on_moved` for a given filename. -/
def targetDirOf (cfg : Config) (filename : Str) : Str :=
  match reMatch filename with
  | none => pjoin cfg.archiveDir cfg.unmatchedDir
  | some r => datedDir cfg r

/-- The conflict filename `f"{base}-{counter}{ext}"`. -/
def conflictName (base ext : Str) (n : Nat) : Str :=
  base ++ '-' :: (natStr n ++ ext)

/-- The `while os.path.exists(temp_location)` search loop of `on_moved`,
with explicit fuel (the caller passes enough fuel for the loop to find a
free name; the filesystem is finite, so one always exists). -/
def conflictLoop (fs : FS) (dir base ext : Str) : Nat → Nat → Str → Str
  | 0, _, temp => temp
  | fuel + 1, counter, temp =>
    if pathExists fs temp then
      conflictLoop fs dir base ext fuel (counter + 1)
        (pjoin dir (conflictName base ext counter))
    else temp

/-- The fallback in the `except OSError` branch of the move: try to
route the source file into the unmatched directory; that `os.replace` is
not itself guarded, so its failure escapes the handler. -/
def fallbackMove (cfg : Config) (env : Env) (fs : FS) (ev : MoveEvent)
    (filename lockp : Str) : HandlerResult :=
  let unmatched_dir := pjoin cfg.archiveDir cfg.unmatchedDir
  if env.fallbackMoveFails then ⟨fs, [], [lockp], true⟩
  else
    match osReplace fs ev.dest_path (pjoin unmatched_dir filename) with
    | none => ⟨fs, [], [lockp], true⟩
    | some fs2 => ⟨fs2, [], [lockp], false⟩

/-- The `os.replace` + `RABBITMQ_CLIENT.send_message` block of
`on_moved`.  When the filename did not match the regex, building the
message payload evaluates `match.group(...)` on `None` and raises an
`AttributeError`, which the surrounding `except OSError` does not catch. -/
def moveAndNotify (cfg : Config) (env : Env) (fs : FS) (ev : MoveEvent)
    (m : Option MatchRes) (filename new_location lockp : Str) : HandlerResult :=
  if env.primaryMoveFails then fallbackMove cfg env fs ev filename lockp
  else
    match osReplace fs ev.dest_path new_location with
    | none => fallbackMove cfg env fs ev filename lockp
    | some fs2 =>
      match m with
      | none => ⟨fs2, [], [lockp], true⟩
      | some mr => ⟨fs2, [mkMessage filename mr], [lockp], false⟩

/-- The body of the `with acquire_lock(lock_file_path)` block of
`on_moved`: existence check, hash comparison, counter search, move and
notification. -/
def placeUnderLock (cfg : Config) (env : Env) (fs : FS) (ev : MoveEvent)
    (m : Option MatchRes) (filename target_dir : Str) : HandlerResult :=
  let lockp := pjoin target_dir lockName
  let new_location := pjoin target_dir filename
  if pathExists fs new_location then
    let new_file_hash := compute_file_hash fs ev.dest_path
    let existing_file_hash := compute_file_hash fs new_location
    if new_file_hash = none ∨ existing_file_hash = none then
      ⟨fs, [], [lockp], false⟩
    else if new_file_hash = existing_file_hash then
      ⟨fs, [], [lockp], false⟩
    else
      let be := splitext filename
      let nl2 := conflictLoop fs target_dir be.1 be.2 (fs.length + 2) 1 new_location
      moveAndNotify cfg env fs ev m filename nl2 lockp
  else moveAndNotify cfg env fs ev m filename new_location lockp

/-- Model of `ArchiveHandler.on_moved` from `file_watchdog.py`.  Note the
faithful translation of the guard `if not src_ext == ".temp" and
dst_ext == ".mp3": return` -- by Python operator precedence this skips an
event only when the source extension differs from `.temp` AND the
destination extension is `.mp3`. -/
def on_moved (cfg : Config) (env : Env) (fs : FS) (ev : MoveEvent) : HandlerResult :=
  if ev.is_directory then ⟨fs, [], [], false⟩
  else
    let src_ext := (splitext ev.src_path).2
    let dst_ext := (splitext ev.dest_path).2
    if (¬ src_ext = tempExt) ∧ dst_ext = mp3Ext then ⟨fs, [], [], false⟩
    else
      let filename := basename ev.dest_path
      let m := reMatch filename
      let target_dir := targetDirOf cfg filename
      if env.mkdirFails then ⟨fs, [], [], false⟩
      else placeUnderLock cfg env fs ev m filename target_dir

/-! ### Correctness of the counter-search loop -/

lemma pathExists_eq_false_iff (fs : FS) (p : Str) :
    pathExists fs p = false ↔ readFile fs p = none := by
  rw [pathExists]
  cases readFile fs p <;> simp

lemma pathExists_eq_true_iff (fs : FS) (p : Str) :
    pathExists fs p = true ↔ ∃ v, readFile fs p = some v := by
  rw [pathExists, Option.isSome_iff_exists]

lemma pjoin_right_inj {a b1 b2 : Str} (hh : b1.head? = b2.head?)
    (h : pjoin a b1 = pjoin a b2) : b1 = b2 := by
  rw [pjoin, pjoin] at h
  by_cases hs : b1.head? = some '/'
  · have hs2 : b2.head? = some '/' := by rw [← hh]; exact hs
    rw [if_pos hs, if_pos hs2] at h
    exact h
  · have hs2 : ¬ b2.head? = some '/' := by rw [← hh]; exact hs
    rw [if_neg hs, if_neg hs2] at h
    by_cases ha : a = []
    · rw [if_pos ha, if_pos ha] at h
      exact h
    · rw [if_neg ha, if_neg ha] at h
      by_cases hl : a.getLast? = some '/'
      · rw [if_pos hl, if_pos hl] at h
        exact List.append_cancel_left h
      · rw [if_neg hl, if_neg hl] at h
        exact List.cons.inj (List.append_cancel_left h) |>.2

lemma conflictName_head (base ext : Str) (n : Nat) :
    (conflictName base ext n).head? = (base ++ ['-']).head? := by
  cases base <;> simp [conflictName]

lemma conflictName_inj (base ext : Str) : Function.Injective (conflictName base ext) := by
  intro n1 n2 h
  rw [conflictName, conflictName] at h
  have h2 := List.cons.inj (List.append_cancel_left h) |>.2
  exact natStr_injective (List.append_cancel_right h2)

lemma conflictPath_inj (dir base ext : Str) :
    Function.Injective (fun n => pjoin dir (conflictName base ext n)) := by
  intro n1 n2 h
  refine conflictName_inj base ext (pjoin_right_inj ?_ h)
  rw [conflictName_head, conflictName_head]

/-- Pigeonhole: an injective family of `fs.length + 1` candidate paths
cannot all be occupied by the `fs.length` files of `fs`. -/
lemma exists_le_free (fs : FS) (f : Nat → Str) (hinj : Function.Injective f) :
    ∃ n, 1 ≤ n ∧ n ≤ fs.length + 1 ∧ pathExists fs (f n) = false := by
  by_contra hall
  push_neg at hall
  have hocc : ∀ n ∈ Finset.Icc 1 (fs.length + 1), f n ∈ (fs.map Prod.fst).toFinset := by
    intro n hn
    rw [Finset.mem_Icc] at hn
    have := hall n hn.1 hn.2
    rw [List.mem_toFinset, ← pathExists_iff_mem_keys]
    cases hpe : pathExists fs (f n)
    · exact absurd hpe this
    · rfl
  have hcard := Finset.card_le_card_of_injOn f hocc
    (fun x _ y _ hxy => hinj hxy)
  rw [Nat.card_Icc] at hcard
  have hle : (fs.map Prod.fst).toFinset.card ≤ fs.length := by
    have := (fs.map Prod.fst).toFinset_card_le
    simpa using this
  omega

lemma conflictLoop_run (fs : FS) (dir base ext : Str) (L : Nat)
    (hfree : pathExists fs (pjoin dir (conflictName base ext L)) = false)
    (hbelow : ∀ m, 1 ≤ m → m < L →
      pathExists fs (pjoin dir (conflictName base ext m)) = true) :
    ∀ fuel c, 1 ≤ c → c ≤ L → L - c < fuel →
      conflictLoop fs dir base ext fuel (c + 1) (pjoin dir (conflictName base ext c)) =
        pjoin dir (conflictName base ext L) := by
  intro fuel
  induction fuel with
  | zero => intro c h1 h2 h3; omega
  | succ g ih =>
    intro c h1 h2 h3
    rw [conflictLoop]
    by_cases hc : c = L
    · rw [hc, if_neg (by rw [hfree]; simp)]
    · have hlt : c < L := lt_of_le_of_ne h2 hc
      rw [if_pos (hbelow c h1 hlt)]
      exact ih (c + 1) (by omega) (by omega) (by omega)

/-- The counter-search loop, started as `on_moved` starts it on an
occupied slot, lands on the smallest free ordinal `n ≥ 1`. -/
lemma conflictLoop_least (fs : FS) (dir base ext : Str) (start : Str)
    (hstart : pathExists fs start = true) :
    ∃ n, 1 ≤ n ∧
      pathExists fs (pjoin dir (conflictName base ext n)) = false ∧
      (∀ m, 1 ≤ m → m < n →
        pathExists fs (pjoin dir (conflictName base ext m)) = true) ∧
      conflictLoop fs dir base ext (fs.length + 2) 1 start =
        pjoin dir (conflictName base ext n) := by
  have hex := exists_le_free fs _ (conflictPath_inj dir base ext)
  have hex' : ∃ n, 1 ≤ n ∧ pathExists fs (pjoin dir (conflictName base ext n)) = false := by
    obtain ⟨n, hn1, _, hn3⟩ := hex
    exact ⟨n, hn1, hn3⟩
  classical
  let L := Nat.find hex'
  have hspec := Nat.find_spec hex'
  have hL1 : 1 ≤ L := hspec.1
  have hLfree : pathExists fs (pjoin dir (conflictName base ext L)) = false := hspec.2
  have hLle : L ≤ fs.length + 1 := by
    obtain ⟨n, hn1, hn2, hn3⟩ := hex
    exact le_trans (Nat.find_min' hex' ⟨hn1, hn3⟩) hn2
  have hbelow : ∀ m, 1 ≤ m → m < L →
      pathExists fs (pjoin dir (conflictName base ext m)) = true := by
    intro m hm1 hm2
    have := Nat.find_min hex' hm2
    cases hpe : pathExists fs (pjoin dir (conflictName base ext m))
    · exact absurd ⟨hm1, hpe⟩ this
    · rfl
  refine ⟨L, hL1, hLfree, hbelow, ?_⟩
  rw [conflictLoop, if_pos hstart]
  exact conflictLoop_run fs dir base ext L hLfree hbelow (fs.length + 1) 1 le_rfl hL1
    (by omega)

/-! ### Branch lemmas for `on_moved` -/

lemma on_moved_eq_place (cfg : Config) (env : Env) (fs : FS) (ev : MoveEvent)
    (h1 : ev.is_directory = false)
    (h2 : ¬ ((¬ (splitext ev.src_path).2 = tempExt) ∧ (splitext ev.dest_path).2 = mp3Ext))
    (h3 : env.mkdirFails = false) :
    on_moved cfg env fs ev =
      placeUnderLock cfg env fs ev (reMatch (basename ev.dest_path))
        (basename ev.dest_path) (targetDirOf cfg (basename ev.dest_path)) := by
  rw [on_moved]
  simp only [h1, h3, Bool.false_eq_true, if_false, if_neg h2]

lemma moveAndNotify_ok (cfg : Config) (env : Env) (fs : FS) (ev : MoveEvent)
    (m : Option MatchRes) (filename nl lockp : Str) (c : Nat)
    (hprim : env.primaryMoveFails = false)
    (hsrc : readFile fs ev.dest_path = some c) :
    moveAndNotify cfg env fs ev m filename nl lockp =
      ⟨writeFile (removeFile fs ev.dest_path) nl c,
       match m with | none => [] | some mr => [mkMessage filename mr],
       [lockp],
       match m with | none => true | some _ => false⟩ := by
  rw [moveAndNotify]
  simp only [hprim, Bool.false_eq_true, if_false, osReplace, hsrc]
  cases m <;> rfl

lemma placeUnderLock_fresh (cfg : Config) (env : Env) (fs : FS) (ev : MoveEvent)
    (m : Option MatchRes) (filename td : Str) (c : Nat)
    (hfree : pathExists fs (pjoin td filename) = false)
    (hprim : env.primaryMoveFails = false)
    (hsrc : readFile fs ev.dest_path = some c) :
    placeUnderLock cfg env fs ev m filename td =
      ⟨writeFile (removeFile fs ev.dest_path) (pjoin td filename) c,
       match m with | none => [] | some mr => [mkMessage filename mr],
       [pjoin td lockName],
       match m with | none => true | some _ => false⟩ := by
  rw [placeUnderLock]
  simp only [hfree, Bool.false_eq_true, if_false]
  exact moveAndNotify_ok cfg env fs ev m filename _ _ c hprim hsrc

lemma placeUnderLock_duplicate (cfg : Config) (env : Env) (fs : FS) (ev : MoveEvent)
    (m : Option MatchRes) (filename td : Str)
    (hocc : pathExists fs (pjoin td filename) = true)
    (heq : compute_file_hash fs ev.dest_path = compute_file_hash fs (pjoin td filename)) :
    placeUnderLock cfg env fs ev m filename td = ⟨fs, [], [pjoin td lockName], false⟩ := by
  rw [placeUnderLock]
  simp only [hocc, if_true]
  by_cases hn : compute_file_hash fs ev.dest_path = none ∨
      compute_file_hash fs (pjoin td filename) = none
  · rw [if_pos hn]
  · rw [if_neg hn, if_pos heq]

lemma placeUnderLock_conflict (cfg : Config) (env : Env) (fs : FS) (ev : MoveEvent)
    (m : Option MatchRes) (filename td : Str) (nh oh : Nat)
    (hocc : pathExists fs (pjoin td filename) = true)
    (hnh : compute_file_hash fs ev.dest_path = some nh)
    (hoh : compute_file_hash fs (pjoin td filename) = some oh)
    (hne : ¬ nh = oh)
    (hprim : env.primaryMoveFails = false) :
    ∃ n, 1 ≤ n ∧
      pathExists fs (pjoin td (conflictName (splitext filename).1 (splitext filename).2 n)) = false ∧
      (∀ k, 1 ≤ k → k < n →
        pathExists fs (pjoin td (conflictName (splitext filename).1 (splitext filename).2 k)) = true) ∧
      placeUnderLock cfg env fs ev m filename td =
        ⟨writeFile (removeFile fs ev.dest_path)
           (pjoin td (conflictName (splitext filename).1 (splitext filename).2 n)) nh,
         match m with | none => [] | some mr => [mkMessage filename mr],
         [pjoin td lockName],
         match m with | none => true | some _ => false⟩ := by
  obtain ⟨n, hn1, hnfree, hnbelow, hloop⟩ :=
    conflictLoop_least fs td (splitext filename).1 (splitext filename).2
      (pjoin td filename) hocc
  refine ⟨n, hn1, hnfree, hnbelow, ?_⟩
  rw [placeUnderLock]
  simp only [hocc, if_true]
  rw [if_neg (by simp [hnh, hoh]), if_neg (by rw [hnh, hoh]; simp [hne])]
  simp only [hloop]
  exact moveAndNotify_ok cfg env fs ev m filename _ _ nh hprim hnh

/-! ### Outcome analysis of the placement handler -/

lemma fallbackMove_cases (cfg : Config) (env : Env) (fs : FS) (ev : MoveEvent)
    (filename lockp : Str) :
    fallbackMove cfg env fs ev filename lockp = ⟨fs, [], [lockp], true⟩ ∨
    (∃ c, readFile fs ev.dest_path = some c ∧
      fallbackMove cfg env fs ev filename lockp =
        ⟨writeFile (removeFile fs ev.dest_path)
           (pjoin (pjoin cfg.archiveDir cfg.unmatchedDir) filename) c,
         [], [lockp], false⟩) := by
  rw [fallbackMove]
  by_cases hf : env.fallbackMoveFails
  · left; rw [if_pos hf]
  · rw [if_neg hf]
    cases hr : readFile fs ev.dest_path with
    | none => left; rw [osReplace, hr]
    | some c =>
      right
      exact ⟨c, rfl, by rw [osReplace, hr]⟩

lemma moveAndNotify_cases (cfg : Config) (env : Env) (fs : FS) (ev : MoveEvent)
    (m : Option MatchRes) (filename nl lockp : Str) :
    ((env.primaryMoveFails = true ∨ readFile fs ev.dest_path = none) ∧
      moveAndNotify cfg env fs ev m filename nl lockp = ⟨fs, [], [lockp], true⟩) ∨
    (env.primaryMoveFails = false ∧ ∃ c, readFile fs ev.dest_path = some c ∧
      moveAndNotify cfg env fs ev m filename nl lockp =
        ⟨writeFile (removeFile fs ev.dest_path) nl c,
         match m with | none => [] | some mr => [mkMessage filename mr],
         [lockp],
         match m with | none => true | some _ => false⟩) ∨
    (env.primaryMoveFails = true ∧ ∃ c, readFile fs ev.dest_path = some c ∧
      moveAndNotify cfg env fs ev m filename nl lockp =
        ⟨writeFile (removeFile fs ev.dest_path)
           (pjoin (pjoin cfg.archiveDir cfg.unmatchedDir) filename) c,
         [], [lockp], false⟩) := by
  by_cases hp : env.primaryMoveFails
  · have hmn : moveAndNotify cfg env fs ev m filename nl lockp =
        fallbackMove cfg env fs ev filename lockp := by
      rw [moveAndNotify, if_pos hp]
    rcases fallbackMove_cases cfg env fs ev filename lockp with hF | ⟨c, hc, hF⟩
    · left; exact ⟨Or.inl hp, by rw [hmn, hF]⟩
    · right; right; exact ⟨hp, c, hc, by rw [hmn, hF]⟩
  · rcases Option.eq_none_or_eq_some (readFile fs ev.dest_path) with hr | ⟨c, hr⟩
    · have hmn : moveAndNotify cfg env fs ev m filename nl lockp =
          fallbackMove cfg env fs ev filename lockp := by
        rw [moveAndNotify, if_neg hp, osReplace, hr]
      rcases fallbackMove_cases cfg env fs ev filename lockp with hF | ⟨c, hc, hF⟩
      · left; exact ⟨Or.inr hr, by rw [hmn, hF]⟩
      · rw [hr] at hc; exact absurd hc (by simp)
    · right; left
      refine ⟨by simp [hp], c, hr, ?_⟩
      rw [moveAndNotify, if_neg hp, osReplace, hr]
      cases m <;> rfl

lemma placeUnderLock_cases (cfg : Config) (env : Env) (fs : FS) (ev : MoveEvent)
    (m : Option MatchRes) (filename td : Str) :
    placeUnderLock cfg env fs ev m filename td = ⟨fs, [], [pjoin td lockName], false⟩ ∨
    ((env.primaryMoveFails = true ∨ readFile fs ev.dest_path = none) ∧
      placeUnderLock cfg env fs ev m filename td = ⟨fs, [], [pjoin td lockName], true⟩) ∨
    (env.primaryMoveFails = false ∧ ∃ c nl, readFile fs ev.dest_path = some c ∧
      pathExists fs nl = false ∧
      placeUnderLock cfg env fs ev m filename td =
        ⟨writeFile (removeFile fs ev.dest_path) nl c,
         match m with | none => [] | some mr => [mkMessage filename mr],
         [pjoin td lockName],
         match m with | none => true | some _ => false⟩) ∨
    (env.primaryMoveFails = true ∧ ∃ c, readFile fs ev.dest_path = some c ∧
      placeUnderLock cfg env fs ev m filename td =
        ⟨writeFile (removeFile fs ev.dest_path)
           (pjoin (pjoin cfg.archiveDir cfg.unmatchedDir) filename) c,
         [], [pjoin td lockName], false⟩) := by
  cases hocc : pathExists fs (pjoin td filename) with
  | false =>
    have hpl : placeUnderLock cfg env fs ev m filename td =
        moveAndNotify cfg env fs ev m filename (pjoin td filename) (pjoin td lockName) := by
      rw [placeUnderLock]
      simp only [hocc, Bool.false_eq_true, if_false]
    rcases moveAndNotify_cases cfg env fs ev m filename (pjoin td filename)
        (pjoin td lockName) with ⟨ht, hM⟩ | ⟨hp, c, hc, hM⟩ | ⟨hp, c, hc, hM⟩
    · right; left; exact ⟨ht, by rw [hpl, hM]⟩
    · right; right; left
      exact ⟨hp, c, pjoin td filename, hc, hocc, by rw [hpl, hM]⟩
    · right; right; right; exact ⟨hp, c, hc, by rw [hpl, hM]⟩
  | true =>
    rcases Option.eq_none_or_eq_some (readFile fs ev.dest_path) with hnh | ⟨nh, hnh⟩
    · left
      rw [placeUnderLock]
      simp only [hocc, if_true]
      rw [if_pos (Or.inl (by rw [compute_file_hash, hnh]))]
    · rcases Option.eq_none_or_eq_some (readFile fs (pjoin td filename)) with
        hoh | ⟨oh, hoh⟩
      · exact absurd ((pathExists_eq_false_iff fs (pjoin td filename)).mpr hoh)
          (by rw [hocc]; simp)
      · by_cases heq : nh = oh
        · left
          exact placeUnderLock_duplicate cfg env fs ev m filename td hocc
            (by rw [compute_file_hash, compute_file_hash, hnh, hoh, heq])
        · obtain ⟨n, hn1, hnfree, hnbelow, hloop⟩ :=
            conflictLoop_least fs td (splitext filename).1 (splitext filename).2
              (pjoin td filename) hocc
          have hpl : placeUnderLock cfg env fs ev m filename td =
              moveAndNotify cfg env fs ev m filename
                (pjoin td (conflictName (splitext filename).1 (splitext filename).2 n))
                (pjoin td lockName) := by
            rw [placeUnderLock]
            simp only [hocc, if_true]
            rw [if_neg (by rw [compute_file_hash, compute_file_hash, hnh, hoh]; simp),
              if_neg (by rw [compute_file_hash, compute_file_hash, hnh, hoh]; simp [heq])]
            simp only [hloop]
          rcases moveAndNotify_cases cfg env fs ev m filename
              (pjoin td (conflictName (splitext filename).1 (splitext filename).2 n))
              (pjoin td lockName) with ⟨ht, hM⟩ | ⟨hp, c, hc, hM⟩ | ⟨hp, c, hc, hM⟩
          · right; left; exact ⟨ht, by rw [hpl, hM]⟩
          · right; right; left
            exact ⟨hp, c, _, hc, hnfree, by rw [hpl, hM]⟩
          · right; right; right; exact ⟨hp, c, hc, by rw [hpl, hM]⟩

/-- Conflict placement with persistence facts: the incoming file lands on
the smallest free ordinal and the occupant keeps its content. -/
lemma placeUnderLock_conflict_persist (cfg : Config) (env : Env) (fs : FS)
    (ev : MoveEvent) (m : Option MatchRes) (filename td : Str) (nh oh : Nat)
    (hocc : pathExists fs (pjoin td filename) = true)
    (hnh : compute_file_hash fs ev.dest_path = some nh)
    (hoh : compute_file_hash fs (pjoin td filename) = some oh)
    (hne : ¬ nh = oh)
    (hprim : env.primaryMoveFails = false) :
    ∃ n, 1 ≤ n ∧
      pathExists fs
        (pjoin td (conflictName (splitext filename).1 (splitext filename).2 n)) = false ∧
      (∀ k, 1 ≤ k → k < n →
        pathExists fs
          (pjoin td (conflictName (splitext filename).1 (splitext filename).2 k)) = true) ∧
      readFile (placeUnderLock cfg env fs ev m filename td).fs
        (pjoin td (conflictName (splitext filename).1 (splitext filename).2 n)) = some nh ∧
      readFile (placeUnderLock cfg env fs ev m filename td).fs
        (pjoin td filename) = some oh ∧
      ¬ pjoin td (conflictName (splitext filename).1 (splitext filename).2 n) =
          pjoin td filename := by
  obtain ⟨n, hn1, hnfree, hnbelow, heq⟩ :=
    placeUnderLock_conflict cfg env fs ev m filename td nh oh hocc hnh hoh hne hprim
  have hslot_ne : ¬ pjoin td (conflictName (splitext filename).1 (splitext filename).2 n) =
      pjoin td filename := by
    intro he
    rw [he, hocc] at hnfree
    exact absurd hnfree (by simp)
  have hdest_ne : ¬ pjoin td filename = ev.dest_path := by
    intro he
    rw [compute_file_hash] at hnh hoh
    rw [he, hnh] at hoh
    exact hne (Option.some.inj hoh)
  refine ⟨n, hn1, hnfree, hnbelow, ?_, ?_, hslot_ne⟩
  · simp only [heq]
    rw [readFile_writeFile, if_pos rfl]
  · simp only [heq]
    rw [readFile_writeFile, if_neg (fun h => hslot_ne h.symm),
      readFile_removeFile, if_neg hdest_ne]
    exact hoh

/-! ### Capture Monitor -/

/-- Model of Python's `s.endswith(suf)`. -/
def endsWith (suf s : Str) : Bool := decide (s.drop (s.length - suf.length) = suf)

/-- The final path computed by `rename_temp_to_mp3`: for a path ending in
`.temp`, `temp_path.rsplit(".temp", 1)[0] + ".mp3"` is the path with the
last five characters replaced by `.mp3`. -/
def finalPathOf (temp_path : Str) : Str :=
  temp_path.take (temp_path.length - 5) ++ mp3Ext

/-- Model of `rename_temp_to_mp3` from `src/recording/recording_driver.py`
(lines 112-132): guard on the `.temp` suffix, check existence, then
`os.rename` (which on POSIX replaces the destination).  Returns the new
filesystem and the new path on success, or `none` on any of the error
paths. -/
def rename_temp_to_mp3 (fs : FS) (temp_path : Str) : FS × Option Str :=
  if endsWith tempExt temp_path then
    if pathExists fs temp_path then
      match osReplace fs temp_path (finalPathOf temp_path) with
      | some fs2 => (fs2, some (finalPathOf temp_path))
      | none => (fs, none)
    else (fs, none)
  else (fs, none)

/-- One diagnostic line of the capture process as probed by
`business_logic` in `src/recording/recording_driver.py`: the two
`re.search` calls for the `... ended` and `Opening ... for writing`
patterns may each match or not; each field holds `group(1)` of its
pattern when it matched.  Metadata-update and unrecognized lines have
both fields `none` (they only log). -/
structure LogLine where
  ended : Option Str
  opening : Option Str
  deriving DecidableEq

/-- Model of `business_logic` from `src/recording/recording_driver.py`
(lines 135-178): an explicit `segment:'...' count:n ended` line renames
that specific segment's `.temp` file; an `Opening '...' for writing`
line then returns the newly opened path as the active segment WITHOUT
renaming the previously active one; otherwise the active segment is
returned unchanged.  The filesystem is threaded through the
`rename_temp_to_mp3` call. -/
def business_logic (fs : FS) (log_line : LogLine) (active_segment : Option Str) :
    FS × Option Str :=
  let fs1 := match log_line.ended with
    | some p => (rename_temp_to_mp3 fs p).1
    | none => fs
  match log_line.opening with
  | some p => (fs1, some p)
  | none => (fs1, active_segment)

lemma endsWith_length {s : Str} (h : endsWith tempExt s = true) : 5 ≤ s.length := by
  rw [endsWith, decide_eq_true_eq] at h
  have hl := congrArg List.length h
  rw [List.length_drop] at hl
  simp only [tempExt, List.length_cons, List.length_nil] at hl ⊢
  omega

lemma finalPathOf_ne {s : Str} (h : endsWith tempExt s = true) : ¬ finalPathOf s = s := by
  intro he
  have hlen := endsWith_length h
  have hl := congrArg List.length he
  rw [finalPathOf, List.length_append, List.length_take] at hl
  simp only [mp3Ext, List.length_cons, List.length_nil] at hl
  omega

/-- C5 counterexample: a segment-open line for B, processed while A is
the tracked active segment and A still sits under its provisional
`.temp` name with no explicit ended line for A having been processed,
does NOT finalize A: `business_logic` leaves the filesystem untouched
(A remains `.temp`, its `.mp3` name stays absent) and merely makes B
the tracked active segment. -/
theorem claim_C5_counterexample :
    business_logic [("/archive/A.temp".data, 3)]
      ⟨none, some "/archive/B.temp".data⟩ (some "/archive/A.temp".data) =
      ([("/archive/A.temp".data, 3)], some "/archive/B.temp".data) ∧
    pathExists [("/archive/A.temp".data, 3)] "/archive/A.temp".data = true ∧
    pathExists [("/archive/A.temp".data, 3)]
      (finalPathOf "/archive/A.temp".data) = false := by
  refine ⟨by decide, by decide, by decide⟩

/-- C5 (amended): the Capture Monitor finalizes a segment exactly upon
processing the explicit segment-ended line for that file: an ended line
for A (still present under its `.temp` name) renames A to its `.mp3`
name and leaves the tracked active segment unchanged, while a
segment-open line for B performs no rename at all — the filesystem is
untouched and B simply becomes the tracked active segment. -/
theorem claim_C5_amended_finalize_on_ended (fs : FS) (a b : Str)
    (act : Option Str)
    (htemp : endsWith tempExt a = true)
    (hex : pathExists fs a = true) :
    (pathExists (business_logic fs ⟨some a, none⟩ act).1 a = false ∧
     pathExists (business_logic fs ⟨some a, none⟩ act).1 (finalPathOf a) = true ∧
     (business_logic fs ⟨some a, none⟩ act).2 = act) ∧
    business_logic fs ⟨none, some b⟩ act = (fs, some b) := by
  obtain ⟨c, hc⟩ := (pathExists_eq_true_iff fs a).mp hex
  have hren : rename_temp_to_mp3 fs a =
      (writeFile (removeFile fs a) (finalPathOf a) c, some (finalPathOf a)) := by
    rw [rename_temp_to_mp3, if_pos htemp, if_pos hex, osReplace, hc]
  have hb : business_logic fs ⟨some a, none⟩ act =
      ((rename_temp_to_mp3 fs a).1, act) := rfl
  refine ⟨?_, rfl⟩
  rw [hb, hren]
  refine ⟨?_, ?_, rfl⟩
  · rw [pathExists_eq_false_iff, readFile_writeFile,
      if_neg (fun hq => finalPathOf_ne htemp hq.symm), readFile_removeFile, if_pos rfl]
  · rw [pathExists_eq_true_iff]
    exact ⟨c, by rw [readFile_writeFile, if_pos rfl]⟩

/-- C5 witness: the amended theorem at a concrete filesystem: the ended
line for A finalizes A, the open line for B renames nothing. -/
theorem claim_C5_amended_finalize_on_ended_witness :
    (pathExists (business_logic [("/archive/A.temp".data, 3)]
        ⟨some "/archive/A.temp".data, none⟩ (some "/archive/A.temp".data)).1
        "/archive/A.temp".data = false ∧
     pathExists (business_logic [("/archive/A.temp".data, 3)]
        ⟨some "/archive/A.temp".data, none⟩ (some "/archive/A.temp".data)).1
        (finalPathOf "/archive/A.temp".data) = true ∧
     (business_logic [("/archive/A.temp".data, 3)]
        ⟨some "/archive/A.temp".data, none⟩ (some "/archive/A.temp".data)).2 =
       some "/archive/A.temp".data) ∧
    business_logic [("/archive/A.temp".data, 3)]
      ⟨none, some "/archive/B.temp".data⟩ (some "/archive/A.temp".data) =
      ([("/archive/A.temp".data, 3)], some "/archive/B.temp".data) :=
  claim_C5_amended_finalize_on_ended [("/archive/A.temp".data, 3)]
    "/archive/A.temp".data "/archive/B.temp".data (some "/archive/A.temp".data)
    (by decide) (by decide)

/-! ### Concrete instances used by the claim theorems -/

/-- Configuration with `ARCHIVE_DIR=/archive` and `UNMATCHED_DIR=unmatched`. -/
def cfgA : Config := ⟨"/archive".data, "unmatched".data⟩

/-- Environment with no injected OS failures. -/
def envA : Env := ⟨false, false, false⟩

/-- Environment in which the primary `os.replace` fails. -/
def envPF : Env := ⟨false, true, false⟩

/-- A finalized segment sitting at the top of the archive directory. -/
def srcA : Str := "/archive/WBOR-2025-02-14T00:35:01Z.mp3".data

/-- The rename event delivered to the watchdog for `srcA`. -/
def evA : MoveEvent := ⟨false, "/archive/WBOR-2025-02-14T00:35:01Z.temp".data, srcA⟩

/-- The canonical dated slot for `srcA`. -/
def occA : Str := "/archive/2025/02/14/WBOR-2025-02-14T00:35:01Z.mp3".data

/-- The same-named slot in the unmatched directory. -/
def uslotA : Str := "/archive/unmatched/WBOR-2025-02-14T00:35:01Z.mp3".data

/-! ### Claims about the Placement Engine -/

/-- C1 (code-bug evaluation): with the dated slot already occupied by a
file with the same digest, `on_moved` returns with the filesystem
unchanged: the incoming duplicate is NOT deleted; it stays at its source
path, so two files with that content remain on disk (the module
docstring promises "deletes the newer duplicate").  No notification is
published and the occupant is untouched. -/
theorem claim_C1_duplicate_left_on_disk :
    compute_file_hash [(srcA, 7), (occA, 7)] srcA =
      compute_file_hash [(srcA, 7), (occA, 7)] occA ∧
    on_moved cfgA envA [(srcA, 7), (occA, 7)] evA =
      ⟨[(srcA, 7), (occA, 7)], [], ["/archive/2025/02/14/.lock".data], false⟩ ∧
    pathExists [(srcA, 7), (occA, 7)] srcA = true ∧
    pathExists [(srcA, 7), (occA, 7)] occA = true := by
  refine ⟨by decide, by decide, by decide, by decide⟩

/-- C2 counterexample: when the primary move fails, the fallback
`os.replace` into the unmatched directory silently overwrites a
same-named occupant there: the occupant's content (digest 5) is gone
afterwards, no error escapes and nothing is logged as a conflict — a
silent overwrite, contradicting the claim. -/
theorem claim_C2_counterexample :
    readFile [(srcA, 9), (uslotA, 5)] uslotA = some 5 ∧
    on_moved cfgA envPF [(srcA, 9), (uslotA, 5)] evA =
      ⟨[(uslotA, 9)], [], ["/archive/2025/02/14/.lock".data], false⟩ ∧
    (∀ q v, readFile [(uslotA, 9)] q = some v → v = 9) := by
  refine ⟨by decide, by decide, ?_⟩
  intro q v h
  have hm := readFile_mem h
  simp only [List.mem_singleton] at hm
  exact congrArg Prod.snd hm

/-- C2 (amended): during normal placement no existing file is
overwritten (only the source path changes); the source file's content
always survives somewhere on disk; a failing primary move routes the
source into the unmatched directory, where it may overwrite only the
same-named unmatched slot; and if the fallback move also fails, the
exception escapes the handler with the filesystem untouched. -/
theorem claim_C2_amended_failure_safety (cfg : Config) (env : Env) (fs : FS)
    (ev : MoveEvent) (c : Nat)
    (h1 : ev.is_directory = false)
    (h2 : ¬ ((¬ (splitext ev.src_path).2 = tempExt) ∧ (splitext ev.dest_path).2 = mp3Ext))
    (h3 : env.mkdirFails = false)
    (hsrc : readFile fs ev.dest_path = some c) :
    (env.primaryMoveFails = false →
      ∀ p v, readFile fs p = some v → ¬ p = ev.dest_path →
        readFile (on_moved cfg env fs ev).fs p = some v) ∧
    (∃ q, readFile (on_moved cfg env fs ev).fs q = some c) ∧
    (∀ p v, readFile fs p = some v → ¬ p = ev.dest_path →
      ¬ p = pjoin (pjoin cfg.archiveDir cfg.unmatchedDir) (basename ev.dest_path) →
        readFile (on_moved cfg env fs ev).fs p = some v) ∧
    (∀ (m : Option MatchRes) (fn nl lockp : Str),
      env.primaryMoveFails = true → env.fallbackMoveFails = true →
      moveAndNotify cfg env fs ev m fn nl lockp = ⟨fs, [], [lockp], true⟩) := by
  rw [on_moved_eq_place cfg env fs ev h1 h2 h3]
  rcases placeUnderLock_cases cfg env fs ev (reMatch (basename ev.dest_path))
      (basename ev.dest_path) (targetDirOf cfg (basename ev.dest_path)) with
    hC | ⟨htag, hC⟩ | ⟨hpf, c', nl, hc', hfree, hC⟩ | ⟨hpt, c', hc', hC⟩
  · refine ⟨?_, ⟨ev.dest_path, ?_⟩, ?_, ?_⟩
    · intro _ p v hv _; rw [hC]; exact hv
    · rw [hC]; exact hsrc
    · intro p v hv _ _; rw [hC]; exact hv
    · intro m fn nl lockp hp hf
      rw [moveAndNotify, if_pos hp, fallbackMove, if_pos hf]
  · refine ⟨?_, ⟨ev.dest_path, ?_⟩, ?_, ?_⟩
    · intro _ p v hv _; rw [hC]; exact hv
    · rw [hC]; exact hsrc
    · intro p v hv _ _; rw [hC]; exact hv
    · intro m fn nl lockp hp hf
      rw [moveAndNotify, if_pos hp, fallbackMove, if_pos hf]
  · have hcc : c' = c := by
      rw [hsrc] at hc'; exact (Option.some.inj hc').symm
    subst hcc
    refine ⟨?_, ⟨nl, ?_⟩, ?_, ?_⟩
    · intro _ p v hv hp
      simp only [hC]
      rw [readFile_writeFile]
      by_cases hpnl : p = nl
      · rw [hpnl] at hv
        rw [(pathExists_eq_false_iff fs nl).mp hfree] at hv
        exact absurd hv (by simp)
      · rw [if_neg hpnl, readFile_removeFile, if_neg hp]
        exact hv
    · simp only [hC]
      rw [readFile_writeFile, if_pos rfl]
    · intro p v hv hp _
      simp only [hC]
      rw [readFile_writeFile]
      by_cases hpnl : p = nl
      · rw [hpnl] at hv
        rw [(pathExists_eq_false_iff fs nl).mp hfree] at hv
        exact absurd hv (by simp)
      · rw [if_neg hpnl, readFile_removeFile, if_neg hp]
        exact hv
    · intro m fn nl' lockp hp hf
      rw [moveAndNotify, if_pos hp, fallbackMove, if_pos hf]
  · have hcc : c' = c := by
      rw [hsrc] at hc'; exact (Option.some.inj hc').symm
    subst hcc
    refine ⟨?_, ⟨pjoin (pjoin cfg.archiveDir cfg.unmatchedDir) (basename ev.dest_path), ?_⟩, ?_, ?_⟩
    · intro hp
      rw [hp] at hpt
      exact absurd hpt (by simp)
    · simp only [hC]
      rw [readFile_writeFile, if_pos rfl]
    · intro p v hv hp hpu
      simp only [hC]
      rw [readFile_writeFile, if_neg hpu, readFile_removeFile, if_neg hp]
      exact hv
    · intro m fn nl' lockp hp hf
      rw [moveAndNotify, if_pos hp, fallbackMove, if_pos hf]

/-- C2 witness: an instantiation of the amended theorem on a concrete
fresh placement. -/
theorem claim_C2_amended_failure_safety_witness :
    ∃ q, readFile (on_moved cfgA envA [(srcA, 9)] evA).fs q = some 9 :=
  (claim_C2_amended_failure_safety cfgA envA [(srcA, 9)] evA 9
    (by decide) (by decide) (by decide) (by decide)).2.1

/-- C3: when the exact target slot is occupied by a file whose digest
differs from the incoming file's digest, `on_moved` places the incoming
file at `{base}-{n}{ext}` in the same target directory, where `n` is the
smallest ordinal `≥ 1` unoccupied at the time of the lock-held search,
and afterwards both the occupant and the incoming file persist on disk
under distinct names. -/
theorem claim_C3_smallest_free_ordinal (cfg : Config) (env : Env) (fs : FS)
    (ev : MoveEvent) (nh oh : Nat)
    (h1 : ev.is_directory = false)
    (h2 : ¬ ((¬ (splitext ev.src_path).2 = tempExt) ∧ (splitext ev.dest_path).2 = mp3Ext))
    (h3 : env.mkdirFails = false)
    (hocc : pathExists fs (pjoin (targetDirOf cfg (basename ev.dest_path))
      (basename ev.dest_path)) = true)
    (hnh : compute_file_hash fs ev.dest_path = some nh)
    (hoh : compute_file_hash fs (pjoin (targetDirOf cfg (basename ev.dest_path))
      (basename ev.dest_path)) = some oh)
    (hne : ¬ nh = oh)
    (hprim : env.primaryMoveFails = false) :
    ∃ n, 1 ≤ n ∧
      pathExists fs (pjoin (targetDirOf cfg (basename ev.dest_path))
        (conflictName (splitext (basename ev.dest_path)).1
          (splitext (basename ev.dest_path)).2 n)) = false ∧
      (∀ k, 1 ≤ k → k < n →
        pathExists fs (pjoin (targetDirOf cfg (basename ev.dest_path))
          (conflictName (splitext (basename ev.dest_path)).1
            (splitext (basename ev.dest_path)).2 k)) = true) ∧
      readFile (on_moved cfg env fs ev).fs
        (pjoin (targetDirOf cfg (basename ev.dest_path))
          (conflictName (splitext (basename ev.dest_path)).1
            (splitext (basename ev.dest_path)).2 n)) = some nh ∧
      readFile (on_moved cfg env fs ev).fs
        (pjoin (targetDirOf cfg (basename ev.dest_path)) (basename ev.dest_path)) =
        some oh ∧
      ¬ pjoin (targetDirOf cfg (basename ev.dest_path))
          (conflictName (splitext (basename ev.dest_path)).1
            (splitext (basename ev.dest_path)).2 n) =
        pjoin (targetDirOf cfg (basename ev.dest_path)) (basename ev.dest_path) := by
  rw [on_moved_eq_place cfg env fs ev h1 h2 h3]
  exact placeUnderLock_conflict_persist cfg env fs ev _ _ _ nh oh hocc hnh hoh hne hprim

/-- C3 witness: concrete conflicting arrival (digests 9 vs 5); the free
ordinal is found and both files persist. -/
theorem claim_C3_smallest_free_ordinal_witness :
    ∃ n, 1 ≤ n ∧
      pathExists [(srcA, 9), (occA, 5)] (pjoin (targetDirOf cfgA (basename evA.dest_path))
        (conflictName (splitext (basename evA.dest_path)).1
          (splitext (basename evA.dest_path)).2 n)) = false ∧
      (∀ k, 1 ≤ k → k < n →
        pathExists [(srcA, 9), (occA, 5)] (pjoin (targetDirOf cfgA (basename evA.dest_path))
          (conflictName (splitext (basename evA.dest_path)).1
            (splitext (basename evA.dest_path)).2 k)) = true) ∧
      readFile (on_moved cfgA envA [(srcA, 9), (occA, 5)] evA).fs
        (pjoin (targetDirOf cfgA (basename evA.dest_path))
          (conflictName (splitext (basename evA.dest_path)).1
            (splitext (basename evA.dest_path)).2 n)) = some 9 ∧
      readFile (on_moved cfgA envA [(srcA, 9), (occA, 5)] evA).fs
        (pjoin (targetDirOf cfgA (basename evA.dest_path)) (basename evA.dest_path)) =
        some 5 ∧
      ¬ pjoin (targetDirOf cfgA (basename evA.dest_path))
          (conflictName (splitext (basename evA.dest_path)).1
            (splitext (basename evA.dest_path)).2 n) =
        pjoin (targetDirOf cfgA (basename evA.dest_path)) (basename evA.dest_path) :=
  claim_C3_smallest_free_ordinal cfgA envA [(srcA, 9), (occA, 5)] evA 9 5
    (by decide) (by decide) (by decide) (by decide) (by decide) (by decide)
    (by decide) (by decide)

/-- C4 counterexample: on a conflict-renamed placement the published
message's `filename` field is the ORIGINAL colliding name, while the
file actually resides under the ordinal-suffixed name — the claim that
the notification carries the final on-disk filename is false. -/
theorem claim_C4_counterexample :
    on_moved cfgA envA [(srcA, 9), (occA, 5)] evA =
      ⟨[("/archive/2025/02/14/WBOR-2025-02-14T00:35:01Z-1.mp3".data, 9), (occA, 5)],
       [⟨"WBOR-2025-02-14T00:35:01Z.mp3".data, "2025".data, "02".data, "14".data,
         "00".data, "35".data, "01".data⟩],
       ["/archive/2025/02/14/.lock".data], false⟩ ∧
    ¬ "WBOR-2025-02-14T00:35:01Z.mp3".data =
        "WBOR-2025-02-14T00:35:01Z-1.mp3".data := by
  refine ⟨by decide, by decide⟩

/-- C4 (amended): for every successful dated placement (fresh or
conflict-renamed; the slot is not occupied by a content-identical file),
exactly one notification is published, no exception escapes, and the
message's `filename` field is the basename of the event's destination
path — the original name, even when the file was placed under an
ordinal-suffixed name. -/
theorem claim_C4_amended_notification (cfg : Config) (env : Env) (fs : FS)
    (ev : MoveEvent) (mr : MatchRes) (c : Nat)
    (h1 : ev.is_directory = false)
    (h2 : ¬ ((¬ (splitext ev.src_path).2 = tempExt) ∧ (splitext ev.dest_path).2 = mp3Ext))
    (h3 : env.mkdirFails = false)
    (hm : reMatch (basename ev.dest_path) = some mr)
    (hsrc : readFile fs ev.dest_path = some c)
    (hprim : env.primaryMoveFails = false)
    (hnd : ¬ compute_file_hash fs (pjoin (targetDirOf cfg (basename ev.dest_path))
      (basename ev.dest_path)) = some c) :
    (on_moved cfg env fs ev).msgs = [mkMessage (basename ev.dest_path) mr] ∧
    (on_moved cfg env fs ev).raised = false := by
  rw [on_moved_eq_place cfg env fs ev h1 h2 h3]
  cases hocc : pathExists fs (pjoin (targetDirOf cfg (basename ev.dest_path))
      (basename ev.dest_path)) with
  | false =>
    have hF := placeUnderLock_fresh cfg env fs ev (reMatch (basename ev.dest_path))
      (basename ev.dest_path) (targetDirOf cfg (basename ev.dest_path)) c hocc hprim hsrc
    rw [hF, hm]
    exact ⟨rfl, rfl⟩
  | true =>
    obtain ⟨oh, hoh⟩ := (pathExists_eq_true_iff fs _).mp hocc
    have hne : ¬ c = oh := by
      intro hce
      rw [hce] at hnd
      exact hnd hoh
    obtain ⟨n, _, _, _, hC⟩ := placeUnderLock_conflict cfg env fs ev
      (reMatch (basename ev.dest_path)) (basename ev.dest_path)
      (targetDirOf cfg (basename ev.dest_path)) c oh hocc hsrc hoh hne hprim
    rw [hC, hm]
    exact ⟨rfl, rfl⟩

/-- C4 witness: the amended theorem at a concrete fresh placement. -/
theorem claim_C4_amended_notification_witness :
    (on_moved cfgA envA [(srcA, 9)] evA).msgs =
      [mkMessage (basename evA.dest_path)
        ⟨"WBOR".data, "2025".data, "02".data, "14".data, "00".data, "35".data,
         "01".data, none⟩] ∧
    (on_moved cfgA envA [(srcA, 9)] evA).raised = false :=
  claim_C4_amended_notification cfgA envA [(srcA, 9)] evA
    ⟨"WBOR".data, "2025".data, "02".data, "14".data, "00".data, "35".data,
     "01".data, none⟩ 9
    (by decide) (by decide) (by decide) (by decide) (by decide) (by decide) (by decide)

/-- C6 (code-bug evaluation): the extension guard of `on_moved` is
`if not src_ext == ".temp" and dst_ext == ".mp3"`, which by Python
precedence skips an event only when the source extension is NOT `.temp`
AND the destination extension IS `.mp3`.  A `.temp` -> `.wav` rename is
therefore processed: the handler classifies it, moves the file into the
unmatched directory and then raises — the filesystem is not left
unchanged as the claim requires. -/
theorem claim_C6_guard_processes_foreign_rename :
    on_moved cfgA envA [("/archive/a.wav".data, 3)]
      ⟨false, "/archive/a.temp".data, "/archive/a.wav".data⟩ =
      ⟨[("/archive/unmatched/a.wav".data, 3)], [],
       ["/archive/unmatched/.lock".data], true⟩ := by
  decide

/-- C7 (code-bug evaluation): a rename to `garbage.mp3` (no timestamp)
is routed into the unmatched directory with no notification, but the
handler then evaluates `match.group("year")` with `match = None` while
building the notification payload, so an `AttributeError` escapes
instead of completing normally. -/
theorem claim_C7_unmatched_route_raises :
    on_moved cfgA envA [("/archive/garbage.mp3".data, 3)]
      ⟨false, "/archive/garbage.temp".data, "/archive/garbage.mp3".data⟩ =
      ⟨[("/archive/unmatched/garbage.mp3".data, 3)], [],
       ["/archive/unmatched/.lock".data], true⟩ := by
  decide

/-- C10: a filename that fails the grammar goes through exactly the same
lock-guarded collision protocol, aimed at the unmatched directory: the
acquired lock is `{archiveRoot}/{unmatchedDir}/.lock`; a same-named
occupant with equal digest leads to the same discard outcome as in a
dated directory (no move, no overwrite, no notification); a same-named
occupant with a different digest gets the smallest free ordinal `≥ 1`
and both files persist. -/
theorem claim_C10_unmatched_same_protocol (cfg : Config) (env : Env) (fs : FS)
    (ev : MoveEvent)
    (h1 : ev.is_directory = false)
    (h2 : ¬ ((¬ (splitext ev.src_path).2 = tempExt) ∧ (splitext ev.dest_path).2 = mp3Ext))
    (h3 : env.mkdirFails = false)
    (hm : reMatch (basename ev.dest_path) = none) :
    (on_moved cfg env fs ev).locks =
      [pjoin (pjoin cfg.archiveDir cfg.unmatchedDir) lockName] ∧
    (pathExists fs (pjoin (pjoin cfg.archiveDir cfg.unmatchedDir)
        (basename ev.dest_path)) = true →
      compute_file_hash fs ev.dest_path =
        compute_file_hash fs (pjoin (pjoin cfg.archiveDir cfg.unmatchedDir)
          (basename ev.dest_path)) →
      on_moved cfg env fs ev =
        ⟨fs, [], [pjoin (pjoin cfg.archiveDir cfg.unmatchedDir) lockName], false⟩) ∧
    (∀ nh oh,
      pathExists fs (pjoin (pjoin cfg.archiveDir cfg.unmatchedDir)
        (basename ev.dest_path)) = true →
      compute_file_hash fs ev.dest_path = some nh →
      compute_file_hash fs (pjoin (pjoin cfg.archiveDir cfg.unmatchedDir)
        (basename ev.dest_path)) = some oh →
      ¬ nh = oh →
      env.primaryMoveFails = false →
      ∃ n, 1 ≤ n ∧
        pathExists fs (pjoin (pjoin cfg.archiveDir cfg.unmatchedDir)
          (conflictName (splitext (basename ev.dest_path)).1
            (splitext (basename ev.dest_path)).2 n)) = false ∧
        (∀ k, 1 ≤ k → k < n →
          pathExists fs (pjoin (pjoin cfg.archiveDir cfg.unmatchedDir)
            (conflictName (splitext (basename ev.dest_path)).1
              (splitext (basename ev.dest_path)).2 k)) = true) ∧
        readFile (on_moved cfg env fs ev).fs
          (pjoin (pjoin cfg.archiveDir cfg.unmatchedDir)
            (conflictName (splitext (basename ev.dest_path)).1
              (splitext (basename ev.dest_path)).2 n)) = some nh ∧
        readFile (on_moved cfg env fs ev).fs
          (pjoin (pjoin cfg.archiveDir cfg.unmatchedDir) (basename ev.dest_path)) =
          some oh) := by
  have htd : targetDirOf cfg (basename ev.dest_path) =
      pjoin cfg.archiveDir cfg.unmatchedDir := by
    rw [targetDirOf, hm]
  rw [on_moved_eq_place cfg env fs ev h1 h2 h3, htd]
  refine ⟨?_, ?_, ?_⟩
  · rcases placeUnderLock_cases cfg env fs ev (reMatch (basename ev.dest_path))
        (basename ev.dest_path) (pjoin cfg.archiveDir cfg.unmatchedDir) with
      hC | ⟨_, hC⟩ | ⟨_, c', nl, _, _, hC⟩ | ⟨_, c', _, hC⟩ <;> rw [hC]
  · intro hocc heq
    exact placeUnderLock_duplicate cfg env fs ev (reMatch (basename ev.dest_path))
      (basename ev.dest_path) (pjoin cfg.archiveDir cfg.unmatchedDir) hocc heq
  · intro nh oh hocc hnh hoh hne hprim
    obtain ⟨n, hn1, hfree, hbelow, hread1, hread2, _⟩ :=
      placeUnderLock_conflict_persist cfg env fs ev (reMatch (basename ev.dest_path))
        (basename ev.dest_path) (pjoin cfg.archiveDir cfg.unmatchedDir) nh oh
        hocc hnh hoh hne hprim
    exact ⟨n, hn1, hfree, hbelow, hread1, hread2⟩

/-- C10 witness: a content-distinct collision inside the unmatched
directory, driven through the instantiated theorem. -/
theorem claim_C10_unmatched_same_protocol_witness :
    (on_moved cfgA envA [("/archive/garbage.mp3".data, 9),
        ("/archive/unmatched/garbage.mp3".data, 5)]
      ⟨false, "/archive/garbage.temp".data, "/archive/garbage.mp3".data⟩).locks =
      [pjoin (pjoin cfgA.archiveDir cfgA.unmatchedDir) lockName] :=
  (claim_C10_unmatched_same_protocol cfgA envA
    [("/archive/garbage.mp3".data, 9), ("/archive/unmatched/garbage.mp3".data, 5)]
    ⟨false, "/archive/garbage.temp".data, "/archive/garbage.mp3".data⟩
    (by decide) (by decide) (by decide) (by decide)).1

/-! ### The canonical filename grammar (spec side of claim C8) -/

/-- The timestamp block `{YYYY}-{MM}-{DD}T{HH}:{MM}:{SS}Z` of the
canonical grammar. -/
def tsChars (y mo d h mi s : Str) : Str :=
  y ++ '-' :: (mo ++ '-' :: (d ++ 'T' :: (h ++ ':' :: (mi ++ ':' :: (s ++ ['Z'])))))

/-- The optional conflict-ordinal block `[-{n}]` of the grammar. -/
def cntChars : Option Str → Str
  | none => []
  | some n => '-' :: n

/-- A filename generated by the canonical grammar
`{stationId}-{YYYY}-{MM}-{DD}T{HH}:{MM}:{SS}Z[-{n}].mp3`. -/
def renderName (station y mo d h mi s : Str) (cnt : Option Str) : Str :=
  station ++ '-' :: (tsChars y mo d h mi s ++ (cntChars cnt ++ mp3Ext))

lemma digit_not_dash {c : Char} (h : c.isDigit = true) : ¬ c = '-' := by
  intro he
  rw [he] at h
  exact absurd h (by decide)

lemma digit_not_nl {c : Char} (h : c.isDigit = true) : ¬ c = '\n' := by
  intro he
  rw [he] at h
  exact absurd h (by decide)

lemma takeDigits_exact (ds : Str) (rest : Str) (hd : ∀ c ∈ ds, c.isDigit = true) :
    takeDigits ds.length (ds ++ rest) = some (ds, rest) := by
  induction ds with
  | nil => simp [takeDigits]
  | cons c t ih =>
    simp only [List.length_cons, List.cons_append, takeDigits]
    rw [if_pos (hd c (by simp)), List.append_eq, ih (fun x hx => hd x (by simp [hx]))]
    rfl

lemma expectChar_self (c : Char) (xs : Str) : expectChar c (c :: xs) = some xs := by
  simp [expectChar]

lemma takeWhile_all_append (p : Char → Bool) (n : Str) (x : Char) (t : Str)
    (hn : ∀ c ∈ n, p c = true) (hx : p x = false) :
    (n ++ x :: t).takeWhile p = n ∧ (n ++ x :: t).dropWhile p = x :: t := by
  induction n with
  | nil => simp [List.takeWhile_cons, List.dropWhile_cons, hx]
  | cons c m ih =>
    have hc : p c = true := hn c (by simp)
    have ihm := ih (fun x hx => hn x (by simp [hx]))
    simp [List.takeWhile_cons, List.dropWhile_cons, hc, ihm.1, ihm.2]

lemma matchCounterEnd_render (cnt : Option Str)
    (hcnt : ∀ n, cnt = some n → ¬ n = [] ∧ ∀ c ∈ n, c.isDigit = true) :
    matchCounterEnd (cntChars cnt ++ mp3Ext) = some cnt := by
  cases cnt with
  | none => rfl
  | some n =>
    obtain ⟨hne, hdig⟩ := hcnt n rfl
    cases n with
    | nil => exact absurd rfl hne
    | cons c t =>
      show matchCounterEnd ('-' :: ((c :: t) ++ mp3Ext)) = some (some (c :: t))
      rw [matchCounterEnd, if_pos rfl]
      have hsplit := takeWhile_all_append Char.isDigit (c :: t) '.' ['m', 'p', '3']
        hdig (by decide)
      have hmp : (c :: t) ++ mp3Ext = (c :: t) ++ '.' :: ['m', 'p', '3'] := rfl
      rw [hmp]
      simp only [hsplit.1, hsplit.2]
      rw [if_pos ⟨by simp, by decide⟩]

lemma matchTail_render_chars (y1 y2 y3 y4 m1 m2 d1 d2 h1 h2 i1 i2 s1 s2 : Char)
    (cnt : Option Str)
    (hds : ∀ c ∈ [y1, y2, y3, y4, m1, m2, d1, d2, h1, h2, i1, i2, s1, s2],
      c.isDigit = true)
    (hcnt : ∀ n, cnt = some n → ¬ n = [] ∧ ∀ c ∈ n, c.isDigit = true) :
    matchTail (y1 :: y2 :: y3 :: y4 :: '-' :: m1 :: m2 :: '-' :: d1 :: d2 :: 'T' ::
        h1 :: h2 :: ':' :: i1 :: i2 :: ':' :: s1 :: s2 :: 'Z' ::
        (cntChars cnt ++ mp3Ext)) =
      some ⟨[y1, y2, y3, y4], [m1, m2], [d1, d2], [h1, h2], [i1, i2], [s1, s2], cnt⟩ := by
  have hy1 : y1.isDigit = true := hds y1 (by simp)
  have hy2 : y2.isDigit = true := hds y2 (by simp)
  have hy3 : y3.isDigit = true := hds y3 (by simp)
  have hy4 : y4.isDigit = true := hds y4 (by simp)
  have hm1 : m1.isDigit = true := hds m1 (by simp)
  have hm2 : m2.isDigit = true := hds m2 (by simp)
  have hd1 : d1.isDigit = true := hds d1 (by simp)
  have hd2 : d2.isDigit = true := hds d2 (by simp)
  have hh1 : h1.isDigit = true := hds h1 (by simp)
  have hh2 : h2.isDigit = true := hds h2 (by simp)
  have hi1 : i1.isDigit = true := hds i1 (by simp)
  have hi2 : i2.isDigit = true := hds i2 (by simp)
  have hs1 : s1.isDigit = true := hds s1 (by simp)
  have hs2 : s2.isDigit = true := hds s2 (by simp)
  have e1 : takeDigits 4 (y1 :: y2 :: y3 :: y4 :: '-' :: m1 :: m2 :: '-' :: d1 :: d2 ::
      'T' :: h1 :: h2 :: ':' :: i1 :: i2 :: ':' :: s1 :: s2 :: 'Z' ::
      (cntChars cnt ++ mp3Ext)) =
      some ([y1, y2, y3, y4], '-' :: m1 :: m2 :: '-' :: d1 :: d2 :: 'T' :: h1 :: h2 ::
        ':' :: i1 :: i2 :: ':' :: s1 :: s2 :: 'Z' :: (cntChars cnt ++ mp3Ext)) :=
    takeDigits_exact [y1, y2, y3, y4] _ (by simp [hy1, hy2, hy3, hy4])
  have e2 : takeDigits 2 (m1 :: m2 :: '-' :: d1 :: d2 :: 'T' :: h1 :: h2 :: ':' ::
      i1 :: i2 :: ':' :: s1 :: s2 :: 'Z' :: (cntChars cnt ++ mp3Ext)) =
      some ([m1, m2], '-' :: d1 :: d2 :: 'T' :: h1 :: h2 :: ':' :: i1 :: i2 :: ':' ::
        s1 :: s2 :: 'Z' :: (cntChars cnt ++ mp3Ext)) :=
    takeDigits_exact [m1, m2] _ (by simp [hm1, hm2])
  have e3 : takeDigits 2 (d1 :: d2 :: 'T' :: h1 :: h2 :: ':' :: i1 :: i2 :: ':' ::
      s1 :: s2 :: 'Z' :: (cntChars cnt ++ mp3Ext)) =
      some ([d1, d2], 'T' :: h1 :: h2 :: ':' :: i1 :: i2 :: ':' :: s1 :: s2 :: 'Z' ::
        (cntChars cnt ++ mp3Ext)) :=
    takeDigits_exact [d1, d2] _ (by simp [hd1, hd2])
  have e4 : takeDigits 2 (h1 :: h2 :: ':' :: i1 :: i2 :: ':' :: s1 :: s2 :: 'Z' ::
      (cntChars cnt ++ mp3Ext)) =
      some ([h1, h2], ':' :: i1 :: i2 :: ':' :: s1 :: s2 :: 'Z' ::
        (cntChars cnt ++ mp3Ext)) :=
    takeDigits_exact [h1, h2] _ (by simp [hh1, hh2])
  have e5 : takeDigits 2 (i1 :: i2 :: ':' :: s1 :: s2 :: 'Z' ::
      (cntChars cnt ++ mp3Ext)) =
      some ([i1, i2], ':' :: s1 :: s2 :: 'Z' :: (cntChars cnt ++ mp3Ext)) :=
    takeDigits_exact [i1, i2] _ (by simp [hi1, hi2])
  have e6 : takeDigits 2 (s1 :: s2 :: 'Z' :: (cntChars cnt ++ mp3Ext)) =
      some ([s1, s2], 'Z' :: (cntChars cnt ++ mp3Ext)) :=
    takeDigits_exact [s1, s2] _ (by simp [hs1, hs2])
  simp only [matchTail, Option.bind_eq_bind', e1, e2, e3, e4, e5, e6, expectChar_self,
    Option.some_bind, matchCounterEnd_render cnt hcnt]
  rfl

lemma matchTail_fail_first (x : Char) (rest : Str) (hx : x.isDigit = false) :
    matchTail (x :: rest) = none := by
  have e : takeDigits 4 (x :: rest) = none := by
    show takeDigits (3 + 1) (x :: rest) = none
    rw [takeDigits, if_neg (by simp [hx])]
  simp only [matchTail, Option.bind_eq_bind', e, Option.none_bind]

lemma matchTail_fail_second (a x : Char) (rest : Str) (ha : a.isDigit = true)
    (hx : x.isDigit = false) :
    matchTail (a :: x :: rest) = none := by
  have e : takeDigits 4 (a :: x :: rest) = none := by
    show takeDigits (3 + 1) (a :: x :: rest) = none
    rw [takeDigits, if_pos ha]
    have e2 : takeDigits 3 (x :: rest) = none := by
      show takeDigits (2 + 1) (x :: rest) = none
      rw [takeDigits, if_neg (by simp [hx])]
    rw [e2]
    rfl
  simp only [matchTail, Option.bind_eq_bind', e, Option.none_bind]

lemma matchTail_fail_third (a b x : Char) (rest : Str) (ha : a.isDigit = true)
    (hb : b.isDigit = true) (hx : x.isDigit = false) :
    matchTail (a :: b :: x :: rest) = none := by
  have e : takeDigits 4 (a :: b :: x :: rest) = none := by
    show takeDigits (3 + 1) (a :: b :: x :: rest) = none
    rw [takeDigits, if_pos ha]
    have e2 : takeDigits 3 (b :: x :: rest) = none := by
      show takeDigits (2 + 1) (b :: x :: rest) = none
      rw [takeDigits, if_pos hb]
      have e3 : takeDigits 2 (x :: rest) = none := by
        show takeDigits (1 + 1) (x :: rest) = none
        rw [takeDigits, if_neg (by simp [hx])]
      rw [e3]
      rfl
    rw [e2]
    rfl
  simp only [matchTail, Option.bind_eq_bind', e, Option.none_bind]

lemma matchTail_fail_fourth (a b c x : Char) (rest : Str) (ha : a.isDigit = true)
    (hb : b.isDigit = true) (hc : c.isDigit = true) (hx : x.isDigit = false) :
    matchTail (a :: b :: c :: x :: rest) = none := by
  have e : takeDigits 4 (a :: b :: c :: x :: rest) = none := by
    show takeDigits (3 + 1) (a :: b :: c :: x :: rest) = none
    rw [takeDigits, if_pos ha]
    have e2 : takeDigits 3 (b :: c :: x :: rest) = none := by
      show takeDigits (2 + 1) (b :: c :: x :: rest) = none
      rw [takeDigits, if_pos hb]
      have e3 : takeDigits 2 (c :: x :: rest) = none := by
        show takeDigits (1 + 1) (c :: x :: rest) = none
        rw [takeDigits, if_pos hc]
        have e4 : takeDigits 1 (x :: rest) = none := by
          show takeDigits (0 + 1) (x :: rest) = none
          rw [takeDigits, if_neg (by simp [hx])]
        rw [e4]
        rfl
      rw [e3]
      rfl
    rw [e2]
    rfl
  simp only [matchTail, Option.bind_eq_bind', e, Option.none_bind]

/-- A digit run directly followed by `.mp3` never matches the tail
pattern: the year needs four digits followed by `-`. -/
lemma matchTail_digits_mp3 (n : Str) (hne : ¬ n = [])
    (hdig : ∀ c ∈ n, c.isDigit = true) :
    matchTail (n ++ mp3Ext) = none := by
  have hdot : ('.').isDigit = false := by decide
  match n, hne with
  | [a], _ =>
    exact matchTail_fail_second a '.' _ (hdig a (by simp)) hdot
  | [a, b], _ =>
    exact matchTail_fail_third a b '.' _ (hdig a (by simp)) (hdig b (by simp)) hdot
  | [a, b, c], _ =>
    exact matchTail_fail_fourth a b c '.' _ (hdig a (by simp)) (hdig b (by simp))
      (hdig c (by simp)) hdot
  | a :: b :: c :: d :: tl, _ =>
    have e : takeDigits 4 ((a :: b :: c :: d :: tl) ++ mp3Ext) =
        some ([a, b, c, d], tl ++ mp3Ext) :=
      takeDigits_exact [a, b, c, d] _ (by
        intro x hx
        apply hdig
        simp only [List.mem_cons] at hx ⊢
        rcases hx with h | h | h | h | h
        · exact Or.inl h
        · exact Or.inr (Or.inl h)
        · exact Or.inr (Or.inr (Or.inl h))
        · exact Or.inr (Or.inr (Or.inr (Or.inl h)))
        · simp at h)
    have e2 : expectChar '-' (tl ++ mp3Ext) = none := by
      cases tl with
      | nil => rfl
      | cons x tl2 =>
        have hxd : x.isDigit = true := hdig x (by simp)
        simp only [List.cons_append, expectChar]
        rw [if_neg (fun hx => digit_not_dash hxd hx)]
    simp only [matchTail, Option.bind_eq_bind', e, Option.some_bind, e2,
      Option.none_bind]

/-- No split point strictly inside the rendered timestamp-and-suffix
block can satisfy the tail pattern: every `-` found there is followed by
text that `matchTail` rejects.  This is what makes the greedy station id
capture exactly the station id of the generating decomposition. -/
lemma body_no_split (y1 y2 y3 y4 m1 m2 d1 d2 h1 h2 i1 i2 s1 s2 : Char)
    (cnt : Option Str)
    (hds : ∀ c ∈ [y1, y2, y3, y4, m1, m2, d1, d2, h1, h2, i1, i2, s1, s2],
      c.isDigit = true)
    (hcnt : ∀ n, cnt = some n → ¬ n = [] ∧ ∀ c ∈ n, c.isDigit = true) :
    ∀ i rest, (y1 :: y2 :: y3 :: y4 :: '-' :: m1 :: m2 :: '-' :: d1 :: d2 :: 'T' ::
        h1 :: h2 :: ':' :: i1 :: i2 :: ':' :: s1 :: s2 :: 'Z' ::
        (cntChars cnt ++ mp3Ext)).drop i = '-' :: rest →
      matchTail rest = none := by
  intro i rest hdrop
  rcases i with _|_|_|_|_|_|_|_|_|_|_|_|_|_|_|_|_|_|_|_|j
  all_goals simp only [List.drop_succ_cons, List.drop_zero] at hdrop
  · exact absurd (List.cons.inj hdrop).1 (digit_not_dash (hds y1 (by simp)))
  · exact absurd (List.cons.inj hdrop).1 (digit_not_dash (hds y2 (by simp)))
  · exact absurd (List.cons.inj hdrop).1 (digit_not_dash (hds y3 (by simp)))
  · exact absurd (List.cons.inj hdrop).1 (digit_not_dash (hds y4 (by simp)))
  · rw [← (List.cons.inj hdrop).2]
    exact matchTail_fail_third m1 m2 '-' _ (hds m1 (by simp)) (hds m2 (by simp))
      (by decide)
  · exact absurd (List.cons.inj hdrop).1 (digit_not_dash (hds m1 (by simp)))
  · exact absurd (List.cons.inj hdrop).1 (digit_not_dash (hds m2 (by simp)))
  · rw [← (List.cons.inj hdrop).2]
    exact matchTail_fail_third d1 d2 'T' _ (hds d1 (by simp)) (hds d2 (by simp))
      (by decide)
  · exact absurd (List.cons.inj hdrop).1 (digit_not_dash (hds d1 (by simp)))
  · exact absurd (List.cons.inj hdrop).1 (digit_not_dash (hds d2 (by simp)))
  · exact absurd (List.cons.inj hdrop).1 (by decide)
  · exact absurd (List.cons.inj hdrop).1 (digit_not_dash (hds h1 (by simp)))
  · exact absurd (List.cons.inj hdrop).1 (digit_not_dash (hds h2 (by simp)))
  · exact absurd (List.cons.inj hdrop).1 (by decide)
  · exact absurd (List.cons.inj hdrop).1 (digit_not_dash (hds i1 (by simp)))
  · exact absurd (List.cons.inj hdrop).1 (digit_not_dash (hds i2 (by simp)))
  · exact absurd (List.cons.inj hdrop).1 (by decide)
  · exact absurd (List.cons.inj hdrop).1 (digit_not_dash (hds s1 (by simp)))
  · exact absurd (List.cons.inj hdrop).1 (digit_not_dash (hds s2 (by simp)))
  · exact absurd (List.cons.inj hdrop).1 (by decide)
  · cases cnt with
    | none =>
      simp only [cntChars, List.nil_append] at hdrop
      have hmem : '-' ∈ mp3Ext :=
        List.drop_subset j _ (by rw [hdrop]; exact List.mem_cons_self _ _)
      exact absurd hmem (by decide)
    | some nn =>
      simp only [cntChars, List.cons_append] at hdrop
      cases j with
      | zero =>
        simp only [List.drop_zero] at hdrop
        rw [← (List.cons.inj hdrop).2]
        obtain ⟨hne, hdig⟩ := hcnt nn rfl
        exact matchTail_digits_mp3 nn hne hdig
      | succ jj =>
        simp only [List.drop_succ_cons] at hdrop
        have hmem : '-' ∈ nn ++ mp3Ext :=
          List.drop_subset jj _ (by rw [hdrop]; exact List.mem_cons_self _ _)
        rcases List.mem_append.mp hmem with h | h
        · obtain ⟨_, hdig⟩ := hcnt nn rfl
          exact absurd rfl (digit_not_dash (hdig '-' h))
        · exact absurd h (by decide)

lemma exists_len_four {l : Str} (h : l.length = 4) :
    ∃ a b c d, l = [a, b, c, d] := by
  rcases l with _ | ⟨a, _ | ⟨b, _ | ⟨c, _ | ⟨d, _ | ⟨e, tl⟩⟩⟩⟩⟩
  · simp at h
  · simp at h
  · simp at h
  · simp at h
  · exact ⟨a, b, c, d, rfl⟩
  · simp only [List.length_cons] at h
    omega

lemma exists_len_two {l : Str} (h : l.length = 2) : ∃ a b, l = [a, b] := by
  rcases l with _ | ⟨a, _ | ⟨b, _ | ⟨c, tl⟩⟩⟩
  · simp at h
  · simp at h
  · exact ⟨a, b, rfl⟩
  · simp only [List.length_cons] at h
    omega

lemma length_takeWhile_ge (p : Char → Bool) :
    ∀ (cs : Str) (k : Nat), k ≤ cs.length → (∀ c ∈ cs.take k, p c = true) →
      k ≤ (cs.takeWhile p).length := by
  intro cs
  induction cs with
  | nil => intro k hk _; simpa using hk
  | cons c t ih =>
    intro k hk hall
    cases k with
    | zero => omega
    | succ kk =>
      have hc : p c = true := hall c (by rw [List.take_succ_cons]; simp)
      rw [List.takeWhile_cons, if_pos hc]
      simp only [List.length_cons] at hk ⊢
      have := ih kk (by omega)
        (fun x hx => hall x (by rw [List.take_succ_cons]; simp [hx]))
      omega

lemma reMatchAux_congr (cs : Str) (k0 : Nat)
    (hnone : ∀ j, k0 < j → splitTry j cs = none) :
    ∀ k, k0 ≤ k → reMatchAux cs k = reMatchAux cs k0 := by
  intro k
  induction k with
  | zero =>
    intro hle
    have h0 : k0 = 0 := by omega
    rw [h0]
  | succ kk ih =>
    intro hle
    by_cases hk : k0 = kk + 1
    · rw [hk]
    · have h2 : k0 ≤ kk := by omega
      rw [reMatchAux, hnone (kk + 1) (by omega)]
      exact ih h2

lemma splitTry_eq_none (k : Nat) (cs : Str)
    (h : ∀ rest, cs.drop k = '-' :: rest → matchTail rest = none) :
    splitTry k cs = none := by
  rw [splitTry]
  split
  · rfl
  next c rest heq =>
    by_cases hc : c = '-'
    · subst hc
      rw [if_pos rfl, h rest heq]
      rfl
    · rw [if_neg hc]

lemma splitTry_render (station B : Str) (t : TailRes) (hmt : matchTail B = some t) :
    splitTry station.length (station ++ '-' :: B) =
      some ⟨station, t.year, t.month, t.day, t.hour, t.minute, t.second, t.counter⟩ := by
  have hdropeq : (station ++ '-' :: B).drop station.length = '-' :: B :=
    List.drop_left station ('-' :: B)
  simp only [splitTry, hdropeq, if_pos, hmt, Option.map_some', List.take_left]

lemma reMatchAux_pos (cs : Str) (k : Nat) (hk : 0 < k) (r : MatchRes)
    (hsp : splitTry k cs = some r) : reMatchAux cs k = some r := by
  cases k with
  | zero => omega
  | succ kk => rw [reMatchAux, hsp]

/-- Greedy matching on a grammar-generated filename recovers exactly the
generating decomposition: only the generating split point survives, and
the station id is everything before it. -/
lemma reMatch_render_chars (station : Str)
    (y1 y2 y3 y4 m1 m2 d1 d2 h1 h2 i1 i2 s1 s2 : Char) (cnt : Option Str)
    (hst : ¬ station = [])
    (hstnl : ∀ c ∈ station, ¬ c = '\n')
    (hds : ∀ c ∈ [y1, y2, y3, y4, m1, m2, d1, d2, h1, h2, i1, i2, s1, s2],
      c.isDigit = true)
    (hcnt : ∀ n, cnt = some n → ¬ n = [] ∧ ∀ c ∈ n, c.isDigit = true) :
    reMatch (station ++ '-' :: (y1 :: y2 :: y3 :: y4 :: '-' :: m1 :: m2 :: '-' ::
        d1 :: d2 :: 'T' :: h1 :: h2 :: ':' :: i1 :: i2 :: ':' :: s1 :: s2 :: 'Z' ::
        (cntChars cnt ++ mp3Ext))) =
      some ⟨station, [y1, y2, y3, y4], [m1, m2], [d1, d2], [h1, h2], [i1, i2],
        [s1, s2], cnt⟩ := by
  have hmt := matchTail_render_chars y1 y2 y3 y4 m1 m2 d1 d2 h1 h2 i1 i2 s1 s2 cnt
    hds hcnt
  have hnone : ∀ j, station.length < j →
      splitTry j (station ++ '-' :: (y1 :: y2 :: y3 :: y4 :: '-' :: m1 :: m2 :: '-' ::
        d1 :: d2 :: 'T' :: h1 :: h2 :: ':' :: i1 :: i2 :: ':' :: s1 :: s2 :: 'Z' ::
        (cntChars cnt ++ mp3Ext))) = none := by
    intro j hj
    apply splitTry_eq_none
    intro rest hdropeq
    have hsplit : j = station.length + (j - station.length - 1 + 1) := by omega
    rw [hsplit, List.drop_append, List.drop_succ_cons] at hdropeq
    exact body_no_split y1 y2 y3 y4 m1 m2 d1 d2 h1 h2 i1 i2 s1 s2 cnt hds hcnt
      (j - station.length - 1) rest hdropeq
  rw [reMatch]
  rw [reMatchAux_congr _ station.length hnone _
    (length_takeWhile_ge _ _ station.length (by simp)
      (by rw [List.take_left]; intro c hc; simpa using hstnl c hc))]
  exact reMatchAux_pos _ station.length (List.length_pos.mpr hst) _
    (splitTry_render station _
      ⟨[y1, y2, y3, y4], [m1, m2], [d1, d2], [h1, h2], [i1, i2], [s1, s2], cnt⟩ hmt)

/-- C8: for every filename generated by the canonical grammar
`{stationId}-{YYYY}-{MM}-{DD}T{HH}:{MM}:{SS}Z[-{n}].mp3` (nonempty
newline-free station id, digit fields of the prescribed widths, optional
nonempty digit ordinal), `FILENAME_REGEX` matches it, each captured
group equals the corresponding digit string embedded in the filename,
and recomposing the captured station id and timestamp fields per the
grammar reproduces the original filename minus any conflict ordinal. -/
theorem claim_C8_filename_roundtrip (station y mo d h mi s : Str) (cnt : Option Str)
    (hst : ¬ station = [])
    (hstnl : ∀ c ∈ station, ¬ c = '\n')
    (hy : y.length = 4) (hyd : ∀ c ∈ y, c.isDigit = true)
    (hmo : mo.length = 2) (hmod : ∀ c ∈ mo, c.isDigit = true)
    (hdl : d.length = 2) (hdd : ∀ c ∈ d, c.isDigit = true)
    (hhl : h.length = 2) (hhd : ∀ c ∈ h, c.isDigit = true)
    (hmil : mi.length = 2) (hmid : ∀ c ∈ mi, c.isDigit = true)
    (hsl : s.length = 2) (hsd : ∀ c ∈ s, c.isDigit = true)
    (hcnt : ∀ n, cnt = some n → ¬ n = [] ∧ ∀ c ∈ n, c.isDigit = true) :
    reMatch (renderName station y mo d h mi s cnt) =
      some ⟨station, y, mo, d, h, mi, s, cnt⟩ ∧
    renderName station y mo d h mi s none =
      station ++ '-' :: (tsChars y mo d h mi s ++ mp3Ext) := by
  obtain ⟨y1, y2, y3, y4, rfl⟩ := exists_len_four hy
  obtain ⟨m1, m2, rfl⟩ := exists_len_two hmo
  obtain ⟨d1, d2, rfl⟩ := exists_len_two hdl
  obtain ⟨h1, h2, rfl⟩ := exists_len_two hhl
  obtain ⟨i1, i2, rfl⟩ := exists_len_two hmil
  obtain ⟨s1, s2, rfl⟩ := exists_len_two hsl
  have hds : ∀ c ∈ [y1, y2, y3, y4, m1, m2, d1, d2, h1, h2, i1, i2, s1, s2],
      c.isDigit = true := by
    intro c hc
    simp only [List.mem_cons, List.not_mem_nil, or_false] at hc
    rcases hc with rfl | rfl | rfl | rfl | rfl | rfl | rfl | rfl | rfl | rfl | rfl |
      rfl | rfl | rfl
    · exact hyd c (by simp)
    · exact hyd c (by simp)
    · exact hyd c (by simp)
    · exact hyd c (by simp)
    · exact hmod c (by simp)
    · exact hmod c (by simp)
    · exact hdd c (by simp)
    · exact hdd c (by simp)
    · exact hhd c (by simp)
    · exact hhd c (by simp)
    · exact hmid c (by simp)
    · exact hmid c (by simp)
    · exact hsd c (by simp)
    · exact hsd c (by simp)
  constructor
  · have hB : renderName station [y1, y2, y3, y4] [m1, m2] [d1, d2] [h1, h2]
        [i1, i2] [s1, s2] cnt =
        station ++ '-' :: (y1 :: y2 :: y3 :: y4 :: '-' :: m1 :: m2 :: '-' ::
          d1 :: d2 :: 'T' :: h1 :: h2 :: ':' :: i1 :: i2 :: ':' :: s1 :: s2 :: 'Z' ::
          (cntChars cnt ++ mp3Ext)) := by
      simp [renderName, tsChars]
    rw [hB]
    exact reMatch_render_chars station y1 y2 y3 y4 m1 m2 d1 d2 h1 h2 i1 i2 s1 s2 cnt
      hst hstnl hds hcnt
  · simp [renderName, cntChars]

/-- C8 witness: the grammar round trip at the concrete filename
`WBOR-2025-02-14T00:35:01Z-7.mp3`. -/
theorem claim_C8_filename_roundtrip_witness :
    reMatch (renderName "WBOR".data "2025".data "02".data "14".data "00".data
        "35".data "01".data (some "7".data)) =
      some ⟨"WBOR".data, "2025".data, "02".data, "14".data, "00".data, "35".data,
        "01".data, some "7".data⟩ ∧
    renderName "WBOR".data "2025".data "02".data "14".data "00".data "35".data
        "01".data none =
      "WBOR".data ++ '-' :: (tsChars "2025".data "02".data "14".data "00".data
        "35".data "01".data ++ mp3Ext) :=
  claim_C8_filename_roundtrip "WBOR".data "2025".data "02".data "14".data "00".data
    "35".data "01".data (some "7".data)
    (by decide) (by decide) (by decide) (by decide) (by decide) (by decide)
    (by decide) (by decide) (by decide) (by decide) (by decide) (by decide)
    (by decide) (by decide) (by decide)

end Wbor
